import Mathlib

/-!
Verification development for the `init` command of the mevn-cli project
(`src/commands/basic/init.js`).

The JavaScript module is sequential glue code: it validates the candidate
project name, prompts for a template, clones a boilerplate repository,
writes `mevn.json`, optionally patches `nuxt.config.js`, and finalizes the
clone (help table, history strip, fresh initial commit).

The embedding below mirrors the source line by line:
* external effects (subprocess calls, prompts, file writes) are recorded as
  an explicit event trace (`Ev`);
* the file system is an association list from path to file content, with
  newest write first;
* behaviour of the external world (whether `git` is installed, whether the
  clone succeeds, the answers of the interactive prompts, the content the
  clone places in `nuxt.config.js`, the host platform) is supplied by
  environment records `FetchEnv` and `InitEnv`;
* the JavaScript runtime primitives the module uses (`String.split`,
  `Array.join`, `String.includes`, `Array.find`, `Array.indexOf`,
  `arr[i] = x`, `JSON.parse`, `JSON.stringify`) are modelled by executable
  Lean functions defined here.
-/

namespace MevnCli

/-- Model of a JSON scalar value as used by this module: every value the
module ever stores in `mevn.json` is a string or a boolean. -/
inductive JVal where
  | jstr (s : String)
  | jbool (b : Bool)
deriving DecidableEq, Repr

/-- Model of a flat JSON object: an ordered list of key/value pairs,
matching the insertion-ordered string-keyed objects the module builds. -/
abbrev JObj := List (String × JVal)

/-- JavaScript property assignment `o[k] = v` on a flat object: if the key
is present its value is updated in place (position preserved), otherwise
the pair is appended at the end, as JavaScript insertion order dictates. -/
def jsSet (o : JObj) (k : String) (v : JVal) : JObj :=
  if o.any (fun p => p.1 == k) then
    o.map (fun p => if p.1 == k then (k, v) else p)
  else o ++ [(k, v)]

/-- Character rendering of a scalar as `JSON.stringify` emits it: strings
are wrapped in double quotes (none of the strings this module stringifies
needs escaping), booleans print as `true` / `false`. -/
def valChars : JVal → List Char
  | JVal.jstr s => '\x22' :: (s.data ++ ['\x22'])
  | JVal.jbool b => if b then ['t', 'r', 'u', 'e'] else ['f', 'a', 'l', 's', 'e']

/-- Character rendering of one `"key":value` member as `JSON.stringify`
emits it. -/
def memberChars (k : String) (v : JVal) : List Char :=
  '\x22' :: (k.data ++ '\x22' :: ':' :: valChars v)

/-- Character rendering of the member list of a flat object by
`JSON.stringify` (no indent argument): members separated by commas, no
whitespace. -/
def membersChars : JObj → List Char
  | [] => []
  | (k, v) :: rest =>
    memberChars k v ++ (if rest.isEmpty then [] else ',' :: membersChars rest)

/-- `JSON.stringify` on a flat object with string/boolean values. -/
def stringify (o : JObj) : String :=
  String.mk ('\x7b' :: (membersChars o ++ ['\x7d']))

/-- Whitespace characters skipped by the JSON reader. -/
def isWsChar (c : Char) : Bool :=
  c = ' ' || c = '\n' || c = '\t' || c = '\r'

/-- Skip leading JSON whitespace. -/
def skipWs : List Char → List Char
  | [] => []
  | c :: cs => if isWsChar c then skipWs cs else c :: cs

/-- Scan the body of a JSON string literal up to (and consuming) the
closing double quote; escape sequences never occur in the strings this
module round-trips, so none are handled. -/
def scanStr : List Char → Option (List Char × List Char)
  | [] => none
  | c :: cs =>
    if c = '\x22' then some ([], cs)
    else
      match scanStr cs with
      | some (s, r) => some (c :: s, r)
      | none => none

/-- Parse one scalar JSON value: a string literal, `true`, or `false`. -/
def parseLit : List Char → Option (JVal × List Char)
  | '\x22' :: cs =>
    (match scanStr cs with
     | some (s, r) => some (JVal.jstr (String.mk s), r)
     | none => none)
  | 't' :: 'r' :: 'u' :: 'e' :: r => some (JVal.jbool true, r)
  | 'f' :: 'a' :: 'l' :: 's' :: 'e' :: r => some (JVal.jbool false, r)
  | _ => none

/-- Parse one `"key": value` member, allowing surrounding whitespace. -/
def parseMember (cs : List Char) : Option ((String × JVal) × List Char) :=
  match skipWs cs with
  | '\x22' :: cs1 =>
    (match scanStr cs1 with
     | some (k, cs2) =>
       (match skipWs cs2 with
        | ':' :: cs3 =>
          (match parseLit (skipWs cs3) with
           | some (v, cs4) => some ((String.mk k, v), cs4)
           | none => none)
        | _ => none)
     | none => none)
  | _ => none

/-- Parse a non-empty comma-separated member list (every object this
module parses has at least one member); the fuel bounds the number of
members and shrinks once per member. -/
def parseMembers : Nat → List Char → Option (JObj × List Char)
  | 0, _ => none
  | fuel + 1, cs =>
    match parseMember cs with
    | some (kv, cs1) =>
      (match skipWs cs1 with
       | ',' :: cs2 =>
         (match parseMembers fuel cs2 with
          | some (obj, cs3) => some (kv :: obj, cs3)
          | none => none)
       | rest => some ([kv], rest))
    | none => none

/-- `JSON.parse` restricted to the shapes this module round-trips: a flat
object with at least one member whose values are strings or booleans.
Returns `none` where `JSON.parse` would throw a `SyntaxError`. -/
def parseJson (s : String) : Option JObj :=
  match skipWs s.data with
  | '\x7b' :: cs =>
    (match parseMembers (cs.length + 1) cs with
     | some (obj, rest) =>
       (match skipWs rest with
        | '\x7d' :: rest2 => if (skipWs rest2).isEmpty then some obj else none
        | _ => none)
     | none => none)
  | _ => none

/-- JavaScript `content.split(newline)` on the character list of a string:
splits at every newline, never returns an empty list. -/
def splitNl : List Char → List (List Char)
  | [] => [[]]
  | c :: cs =>
    if c = '\n' then [] :: splitNl cs
    else
      match splitNl cs with
      | h :: t => (c :: h) :: t
      | [] => [[c]]

/-- JavaScript `lines.join(newline)` on character lists. -/
def joinNl : List (List Char) → List Char
  | [] => []
  | [l] => l
  | l :: ls => l ++ '\n' :: joinNl ls

/-- `content.split(newline)` lifted to strings. -/
def splitLines (s : String) : List String :=
  (splitNl s.data).map String.mk

/-- `lines.join(newline)` lifted to strings; also models the
`projectConfig.join(newline)` call that renders `mevn.json`. -/
def joinLines (ls : List String) : String :=
  String.mk (joinNl (ls.map String.data))

/-- Helper for JavaScript `String.includes`: substring occurrence test on
character lists. -/
def containsSubList (l pat : List Char) : Bool :=
  match l with
  | [] => pat.isEmpty
  | _ :: cs => pat.isPrefixOf l || containsSubList cs pat

/-- JavaScript `line.includes(pat)`. -/
def stringIncludes (line pat : String) : Bool :=
  containsSubList line.data pat.data

/-- First index of a list element satisfying a predicate, used to state
what `configFile.indexOf(configFile.find(...))` computes. -/
def firstIdxWith (p : String → Bool) : List String → Option Nat
  | [] => none
  | a :: t => if p a then some 0 else (firstIdxWith p t).map (· + 1)

/-- JavaScript `arr.indexOf(x)` where `x` is the result of `arr.find(...)`:
`indexOf(undefined)` is `-1` on a string array, otherwise the first index
holding an element strictly equal to `x` (or `-1` if there is none). -/
def jsIndexOf (l : List String) : Option String → Int
  | none => -1
  | some v =>
    match firstIdxWith (fun y => y == v) l with
    | some n => (n : Int)
    | none => -1

/-- JavaScript `arr[i] = x` with a possibly negative index, as observed
through the subsequent `arr.join`: a negative index creates a non-element
property and leaves every array element unchanged; an in-range index
replaces that element. (An index beyond the array length never occurs
here: the index always comes from `indexOf`.) -/
def jsArraySet (l : List String) (i : Int) (x : String) : List String :=
  if i < 0 then l else l.set i.toNat x

/-- File system model: association list from path to content, newest
write first. -/
abbrev FS := List (String × String)

/-- `fs.writeFileSync(p, c)`. -/
def fsWrite (fs : FS) (p c : String) : FS := (p, c) :: fs

/-- `fs.readFileSync(p).toString()`, `none` when the path is absent. -/
def fsRead (fs : FS) (p : String) : Option String :=
  (fs.find? (fun e => e.1 == p)).map (fun e => e.2)

/-- Observable effects of one run, in program order. -/
inductive Ev where
  | showBanner
  | existsCheck (path : String)
  | validateInstallation (cmd : String)
  | spinnerStart (msg : String)
  | gitClone (url : Option String) (dir : String)
  | spinnerFail (msg : String)
  | spinnerStop
  | writeFile (path content : String)
  | readFile (path : String)
  | promptList (name msg : String) (choices : List String)
  | promptConfirm (name msg : String)
  | printCommandsTable
  | removeGitDir (cmd path : String)
  | gitInit
  | gitAdd
  | gitCommit (m1 m2 : String)
deriving DecidableEq, Repr

/-- The constant lookup table `boilerplate` from the source, as the
JavaScript property read `boilerplate[template]` (absent key reads as
`undefined`, modelled by `none`). -/
def boilerplate (k : String) : Option String :=
  if k = "basic" then some "https://github.com/madlabsinc/mevn-boilerplate.git"
  else if k = "pwa" then some "https://github.com/madlabsinc/mevn-pwa-boilerplate.git"
  else if k = "graphql" then some "https://github.com/madlabsinc/mevn-graphql-boilerplate.git"
  else if k = "nuxt" then some "https://github.com/madlabsinc/mevn-nuxt-boilerplate.git"
  else none

/-- Path of the persisted config file, `./<project>/mevn.json`. -/
def mevnPath (projectName : String) : String :=
  "./" ++ projectName ++ "/mevn.json"

/-- Path of the cloned runtime config file, `./<project>/nuxt.config.js`. -/
def nuxtConfigPath (projectName : String) : String :=
  "./" ++ projectName ++ "/nuxt.config.js"

/-- The fixed replacement line written in Universal mode, with its leading
space: the template literal from the source. -/
def universalModeLine : String := " mode: \x27universal\x27,"

/-- Behaviour of the external world during `fetchTemplate`. -/
structure FetchEnv where
  /-- Modelled from the spec: `validateInstallation` (in `utils/validate`,
  not part of the sources) probes the version-control client with the
  no-op help command `git help -g` and aborts the workflow when the client
  is missing; this flag says whether the client is present. -/
  gitInstalled : Bool
  /-- `none` when the clone subprocess succeeds; `some err` when it exits
  non-zero, `err` being the error the `await execa(...)` call throws. -/
  cloneResult : Option String
  /-- Content that a successful clone places in the workspace file
  `nuxt.config.js` (the only cloned file the module later reads). -/
  nuxtConfigContent : String
  /-- Answer to the `requirePwaSupport` confirm prompt. -/
  requirePwaSupport : Bool
  /-- Answer to the `mode` list prompt (`Universal` or `SPA`). -/
  mode : String
  /-- Value of `isWin` from `utils/constants`: whether the host platform
  is Windows. -/
  isWin : Bool
deriving Repr

/-- The `showCommandsList` finalizer from the source: prints the command
table, removes the nested version-control directory with the
platform-appropriate shell command, and calls `makeInitialCommit`, which
re-initializes git, stages everything, and creates a single commit with
the fixed two-part message. -/
def showCommandsList (isWin : Bool) (projectName : String) : List Ev :=
  let removeCmd := if isWin then "rmdir /s /q" else "rm -rf"
  let sep := if isWin then "\\" else "/"
  [Ev.printCommandsTable,
   Ev.removeGitDir removeCmd (projectName ++ sep ++ ".git"),
   Ev.gitInit,
   Ev.gitAdd,
   Ev.gitCommit "Initial commit" "From Mevn-CLI"]

/-- The PWA opt-in rewrite from `fetchTemplate`: read `mevn.json` back,
`JSON.parse` it, set `isPwa` to `true`, and write the `JSON.stringify`
rendering. The error branches model the exceptions `readFileSync` and
`JSON.parse` would throw. -/
def pwaRewrite (projectName : String) (fs : FS) : List Ev × Except String FS :=
  match fsRead fs (mevnPath projectName) with
  | none => ([Ev.readFile (mevnPath projectName)], Except.error "ENOENT")
  | some content =>
    match parseJson content with
    | none => ([Ev.readFile (mevnPath projectName)], Except.error "SyntaxError")
    | some configFile =>
      let newContent := stringify (jsSet configFile "isPwa" (JVal.jbool true))
      ([Ev.readFile (mevnPath projectName),
        Ev.writeFile (mevnPath projectName) newContent],
       Except.ok (fsWrite fs (mevnPath projectName) newContent))

/-- The Universal-mode patch from `fetchTemplate`: read `nuxt.config.js`,
split into lines, find the first line containing `mode`, write the fixed
assignment line at `indexOf` of that line (which is `-1` when no line
matches), and write the joined lines back. -/
def universalRewrite (projectName : String) (fs : FS) : List Ev × Except String FS :=
  match fsRead fs (nuxtConfigPath projectName) with
  | none => ([Ev.readFile (nuxtConfigPath projectName)], Except.error "ENOENT")
  | some content =>
    let configFile := splitLines content
    let index := jsIndexOf configFile
      (configFile.find? (fun line => stringIncludes line "mode"))
    let configFile2 := jsArraySet configFile index universalModeLine
    let newContent := joinLines configFile2
    ([Ev.readFile (nuxtConfigPath projectName),
      Ev.writeFile (nuxtConfigPath projectName) newContent],
     Except.ok (fsWrite fs (nuxtConfigPath projectName) newContent))

/-- The template-specific follow-up of `fetchTemplate` (runs only when the
canonical key is `nuxt`): the PWA confirm prompt with its optional config
rewrite, then the rendering-mode prompt with its optional Universal
patch. -/
def nuxtFollowUp (env : FetchEnv) (projectName : String) (fs : FS) :
    List Ev × Except String FS :=
  let pwaPromptEv := [Ev.promptConfirm "requirePwaSupport" "Do you require pwa support"]
  let pwaStep := if env.requirePwaSupport then pwaRewrite projectName fs
                 else ([], Except.ok fs)
  match pwaStep.2 with
  | Except.error e => (pwaPromptEv ++ pwaStep.1, Except.error e)
  | Except.ok fs1 =>
    let modePromptEv := [Ev.promptList "mode" "Choose your preferred mode"
      ["Universal", "SPA"]]
    let modeStep := if env.mode = "Universal" then universalRewrite projectName fs1
                    else ([], Except.ok fs1)
    match modeStep.2 with
    | Except.error e =>
      (pwaPromptEv ++ pwaStep.1 ++ modePromptEv ++ modeStep.1, Except.error e)
    | Except.ok fs2 =>
      (pwaPromptEv ++ pwaStep.1 ++ modePromptEv ++ modeStep.1, Except.ok fs2)

/-- Outcome of `fetchTemplate`. -/
inductive FetchResult where
  /-- Modelled from the spec: the missing-client abort performed inside
  `validateInstallation` (in `utils/validate`, not part of the sources). -/
  | envAbort
  /-- An error thrown out of `fetchTemplate` (the re-thrown clone error,
  or an exception of a file-system or parse step). -/
  | thrown (err : String)
  | success (fs : FS)
deriving DecidableEq, Repr

/-- The `fetchTemplate` function from the source, as a trace- and
state-transformer: probes the client, starts the spinner, clones (the
successful clone materializes the workspace, tracked here by the one
cloned file the code reads later), writes `mevn.json` from the joined
`projectConfig` lines, runs the nuxt follow-up when the canonical key is
`nuxt`, and invokes `showCommandsList`. -/
def fetchTemplate (env : FetchEnv) (template projectName : String)
    (projectConfig : List String) (fs : FS) : List Ev × FetchResult :=
  if env.gitInstalled = false then
    ([Ev.validateInstallation "git help -g"], FetchResult.envAbort)
  else
    let evs0 : List Ev := [Ev.validateInstallation "git help -g",
      Ev.spinnerStart "Fetching the boilerplate template",
      Ev.gitClone (boilerplate template) projectName]
    match env.cloneResult with
    | some err =>
      (evs0 ++ [Ev.spinnerFail "Something went wrong"], FetchResult.thrown err)
    | none =>
      let fs1 := fsWrite fs (nuxtConfigPath projectName) env.nuxtConfigContent
      let content0 := joinLines projectConfig
      let fs2 := fsWrite fs1 (mevnPath projectName) content0
      let evs2 := evs0 ++ [Ev.spinnerStop, Ev.writeFile (mevnPath projectName) content0]
      let followUp := if template = "nuxt" then nuxtFollowUp env projectName fs2
                      else ([], Except.ok fs2)
      match followUp.2 with
      | Except.error e => (evs2 ++ followUp.1, FetchResult.thrown e)
      | Except.ok fs3 =>
        (evs2 ++ followUp.1 ++ showCommandsList env.isWin projectName,
         FetchResult.success fs3)

/-- Behaviour of the external world during `initializeProject`. -/
structure InitEnv where
  /-- `process.argv[4]`, the candidate stray positional token. -/
  argv4 : Option String
  /-- Modelled from the spec: result of the package-name syntax validation
  performed by the external `validate-npm-package-name` library
  (`validationResult.validForNewPackages`). -/
  validForNewPackages : Bool
  /-- Result of `fs.existsSync(appName)`. -/
  dirExists : Bool
  /-- Answer to the template list prompt, one of the four displayed
  labels. -/
  templateChoice : String
deriving Repr

/-- Outcome of `initializeProject`. The three aborts are modelled from the
spec: `hasStrayArgs`, `invalidProjectName`, and `directoryExistsInPath`
(in `utils/messages`, not part of the sources) print a message and
terminate the process. -/
inductive InitResult where
  | strayArgsAbort
  | invalidNameAbort
  | dirExistsAbort
  | fetched (r : FetchResult)
deriving DecidableEq, Repr

/-- The `projectConfig` lines built by `initializeProject`, verbatim from
the template literals in the source; note they are built from the prompt
answer before any remapping of the `Nuxt-js` label. -/
def projectConfigLines (appName template : String) : List String :=
  ["\x7b",
   "\x22name\x22: \x22" ++ appName ++ "\x22,",
   "\x22template\x22: \x22" ++ template ++ "\x22",
   "\x7d"]

/-- JavaScript `s.startsWith(pat)`: prefix test on the character lists. -/
def jsStartsWith (s pat : String) : Bool :=
  pat.data.isPrefixOf s.data

/-- The stray-argument test of `initializeProject`:
`process.argv[4] && !process.argv[4].startsWith(dash)`. The first conjunct
is JavaScript truthiness of the token: an absent argument and the empty
string are both falsy, so only a present, non-empty token that does not
start with a dash counts as a stray argument. -/
def hasMultipleProjectNameArgs (argv4 : Option String) : Bool :=
  match argv4 with
  | some arg => !arg.data.isEmpty && !(jsStartsWith arg "-")
  | none => false

/-- The `initializeProject` function from the source: banner, stray-args
check on `process.argv[4]`, package-name validation, existing-directory
check, template prompt, `projectConfig` construction, remap of the
`Nuxt-js` display label to the canonical key `nuxt`, and the call to
`fetchTemplate`. -/
def initializeProject (ienv : InitEnv) (fenv : FetchEnv) (appName : String)
    (fs : FS) : List Ev × InitResult :=
  let evsBanner : List Ev := [Ev.showBanner]
  if hasMultipleProjectNameArgs ienv.argv4 then
    (evsBanner, InitResult.strayArgsAbort)
  else if ienv.validForNewPackages = false then
    (evsBanner, InitResult.invalidNameAbort)
  else
    let evsA := evsBanner ++ [Ev.existsCheck appName]
    if ienv.dirExists then
      (evsA, InitResult.dirExistsAbort)
    else
      let projectName := appName
      let evsB := evsA ++ [Ev.promptList "template" "Please select your template of choice"
        ["basic", "pwa", "graphql", "Nuxt-js"]]
      let template0 := ienv.templateChoice
      let projectConfig := projectConfigLines appName template0
      let template := if template0 = "Nuxt-js" then "nuxt" else template0
      let fetched := fetchTemplate fenv template projectName projectConfig fs
      (evsB ++ fetched.1, InitResult.fetched fetched.2)

/-- The value persisted under the `template` key of `mevn.json`, read out
of a final workflow state: the parse of the config file at the project
root, looked up at `template`. -/
def persistedTemplate (r : InitResult) (projectName : String) : Option JVal :=
  match r with
  | InitResult.fetched (FetchResult.success fs) =>
    (match fsRead fs (mevnPath projectName) with
     | some c =>
       (match parseJson c with
        | some obj => List.lookup "template" obj
        | none => none)
     | none => none)
  | _ => none

/-- A scalar survives the stringify/parse round trip when its string
payload holds no double quote. -/
def valOk : JVal → Prop
  | JVal.jstr s => '\x22' ∉ s.data
  | JVal.jbool _ => True

/-- All characters of a list are JSON whitespace. -/
def allWs (w : List Char) : Prop := ∀ c ∈ w, isWsChar c = true

/-- Every key and every value of the object round-trips: no double quote
in any key or string value. -/
def objOk (o : JObj) : Prop :=
  ∀ kv ∈ o, '\x22' ∉ (kv.1 : String).data ∧ valOk kv.2

/-- Scan of an event trace used to state the probe-before-clone property:
`true` exactly when a clone event occurs before the first probe of the
version-control client. -/
def cloneBeforeProbe : List Ev → Bool
  | [] => false
  | Ev.validateInstallation _ :: _ => false
  | Ev.gitClone _ _ :: _ => true
  | _ :: rest => cloneBeforeProbe rest

/-- Character layout of the second member block of the pretty-printed
`mevn.json` (the `template` line followed by the closing lines), used to
reason about its parse. -/
def prettyInner2 (tmpl : String) : List Char :=
  '\x22' :: (['t', 'e', 'm', 'p', 'l', 'a', 't', 'e'] ++ '\x22' :: ':' ::
    ([' '] ++ (valChars (JVal.jstr tmpl) ++ ('\n' :: '\x7d' :: []))))

/-- Character layout of the first member block of the pretty-printed
`mevn.json` (the `name` line followed by the rest of the document). -/
def prettyInner1 (name tmpl : String) : List Char :=
  '\x22' :: (['n', 'a', 'm', 'e'] ++ '\x22' :: ':' ::
    ([' '] ++ (valChars (JVal.jstr name) ++ (',' :: ('\n' :: prettyInner2 tmpl)))))

theorem strMk_data (s : String) : String.mk s.data = s := by
  cases s
  rfl

theorem strLength_append (s t : String) : (s ++ t).length = s.length + t.length := by
  cases s with
  | mk d =>
    cases t with
    | mk e =>
      show (d ++ e).length = d.length + e.length
      exact List.length_append d e

theorem mevnPath_ne_nuxtConfigPath (p : String) : mevnPath p ≠ nuxtConfigPath p := by
  intro h
  have hlen := congrArg String.length h
  have e1 : ("./" : String).length = 2 := rfl
  have e2 : ("/mevn.json" : String).length = 10 := rfl
  have e3 : ("/nuxt.config.js" : String).length = 15 := rfl
  simp only [mevnPath, nuxtConfigPath, strLength_append, e1, e2, e3] at hlen
  omega

theorem fsRead_write_self (fs : FS) (p c : String) :
    fsRead (fsWrite fs p c) p = some c := by
  simp [fsRead, fsWrite, List.find?]

theorem fsRead_write_ne (fs : FS) (p q c : String) (h : p ≠ q) :
    fsRead (fsWrite fs p c) q = fsRead fs q := by
  have hb : (p == q) = false := by simp [h]
  simp [fsRead, fsWrite, List.find?, hb]

theorem splitNl_ne_nil (cs : List Char) : splitNl cs ≠ [] := by
  cases cs with
  | nil => simp [splitNl]
  | cons c t =>
    by_cases hc : c = '\n'
    · simp [splitNl, hc]
    · simp only [splitNl, if_neg hc]
      cases h : splitNl t with
      | nil => simp
      | cons a b => simp

theorem joinNl_splitNl (cs : List Char) : joinNl (splitNl cs) = cs := by
  induction cs with
  | nil => rfl
  | cons c t ih =>
    by_cases hc : c = '\n'
    · subst hc
      simp only [splitNl, if_pos rfl]
      cases h : splitNl t with
      | nil => exact absurd h (splitNl_ne_nil t)
      | cons a b =>
        rw [h] at ih
        simpa [joinNl] using ih
    · simp only [splitNl, if_neg hc]
      cases h : splitNl t with
      | nil => exact absurd h (splitNl_ne_nil t)
      | cons a b =>
        rw [h] at ih
        cases b with
        | nil => simpa [joinNl] using ih
        | cons b1 b2 => simpa [joinNl] using ih

theorem joinLines_splitLines (s : String) : joinLines (splitLines s) = s := by
  have hmap : ((splitNl s.data).map String.mk).map String.data = splitNl s.data := by
    rw [List.map_map]
    have : (String.data ∘ String.mk) = id := by
      funext l
      rfl
    simp [this]
  rw [joinLines, splitLines, hmap, joinNl_splitNl]

theorem firstIdxWith_of_find?_eq_none (p : String → Bool) (l : List String)
    (h : l.find? p = none) : firstIdxWith p l = none := by
  induction l with
  | nil => rfl
  | cons a t ih =>
    rw [List.find?_eq_none] at h
    have ha : p a = false := by
      have := h a (List.mem_cons_self a t)
      simpa using this
    have ht : t.find? p = none := by
      rw [List.find?_eq_none]
      intro x hx
      exact h x (List.mem_cons_of_mem a hx)
    simp [firstIdxWith, ha, ih ht]

theorem firstIdxWith_congr_of_find? (p : String → Bool) (l : List String) (v : String)
    (h : l.find? p = some v) :
    firstIdxWith (fun y => y == v) l = firstIdxWith p l := by
  induction l with
  | nil => simp [List.find?] at h
  | cons a t ih =>
    by_cases ha : p a = true
    · have hv : v = a := by
        rw [List.find?_cons_of_pos _ ha] at h
        exact (Option.some_inj.mp h).symm
      subst hv
      simp [firstIdxWith, ha]
    · have ha' : p a = false := by simpa using ha
      rw [List.find?_cons_of_neg _ (by simp [ha'])] at h
      have hpv : p v = true := List.find?_some h
      have hav : (a == v) = false := by
        have : a ≠ v := by
          intro hEq
          rw [hEq] at ha'
          rw [ha'] at hpv
          exact Bool.false_ne_true hpv
        simp [this]
      simp [firstIdxWith, ha', hav, ih h]

theorem firstIdxWith_of_find?_eq_some (p : String → Bool) (l : List String) (v : String)
    (h : l.find? p = some v) :
    ∃ n, firstIdxWith p l = some n := by
  induction l with
  | nil => simp [List.find?] at h
  | cons a t ih =>
    by_cases ha : p a = true
    · exact ⟨0, by simp [firstIdxWith, ha]⟩
    · have ha' : p a = false := by simpa using ha
      rw [List.find?_cons_of_neg _ (by simp [ha'])] at h
      obtain ⟨n, hn⟩ := ih h
      exact ⟨n + 1, by simp [firstIdxWith, ha', hn]⟩

theorem firstIdxWith_spec (p : String → Bool) (l : List String) (n : Nat)
    (h : firstIdxWith p l = some n) :
    n < l.length ∧ (∃ x, l.get? n = some x ∧ p x = true) ∧
      ∀ j, j < n → ∀ x, l.get? j = some x → p x = false := by
  induction l generalizing n with
  | nil => simp [firstIdxWith] at h
  | cons a t ih =>
    by_cases ha : p a = true
    · simp only [firstIdxWith, if_pos ha] at h
      obtain rfl : n = 0 := by simpa using h.symm
      refine ⟨by simp, ⟨a, by simp, ha⟩, ?_⟩
      intro j hj
      omega
    · have ha' : p a = false := by simpa using ha
      simp only [firstIdxWith, ha', if_neg (by simp [ha'] : ¬ p a = true)] at h
      cases hm : firstIdxWith p t with
      | none => rw [hm] at h; simp at h
      | some m =>
        rw [hm] at h
        obtain rfl : n = m + 1 := by simpa using h.symm
        obtain ⟨hlt, ⟨x, hx, hpx⟩, hbefore⟩ := ih m hm
        refine ⟨by simpa using hlt, ⟨x, by simpa using hx, hpx⟩, ?_⟩
        intro j hj y hy
        cases j with
        | zero =>
          have : a = y := by simpa using hy
          rw [← this]
          exact ha'
        | succ j' =>
          have hj' : j' < m := by omega
          exact hbefore j' hj' y (by simpa using hy)

theorem jsIndexOf_of_find?_eq_none (l : List String) (p : String → Bool)
    (h : l.find? p = none) : jsIndexOf l (l.find? p) = -1 := by
  rw [h]
  rfl

theorem jsIndexOf_of_find?_eq_some (l : List String) (p : String → Bool)
    (v : String) (n : Nat) (h : l.find? p = some v)
    (hn : firstIdxWith p l = some n) :
    jsIndexOf l (l.find? p) = (n : Int) := by
  rw [h]
  show jsIndexOf l (some v) = (n : Int)
  rw [jsIndexOf, firstIdxWith_congr_of_find? p l v h, hn]

theorem scanStr_append (k rest : List Char) (h : '\x22' ∉ k) :
    scanStr (k ++ '\x22' :: rest) = some (k, rest) := by
  induction k with
  | nil => simp [scanStr]
  | cons c cs ih =>
    have hc : c ≠ '\x22' := fun hc => h (hc ▸ List.mem_cons_self c cs)
    have hcs : '\x22' ∉ cs := fun hm => h (List.mem_cons_of_mem c hm)
    simp [scanStr, hc, ih hcs]

theorem parseLit_valChars {v : JVal} (rest : List Char) (h : valOk v) :
    parseLit (valChars v ++ rest) = some (v, rest) := by
  cases v with
  | jstr s =>
    have := scanStr_append s.data rest h
    simp [valChars, parseLit, this, strMk_data]
  | jbool b =>
    cases b <;> simp [valChars, parseLit]

theorem skipWs_append_ws {w : List Char} (cs : List Char) (h : allWs w) :
    skipWs (w ++ cs) = skipWs cs := by
  induction w with
  | nil => rfl
  | cons c t ih =>
    have hc : isWsChar c = true := h c (List.mem_cons_self c t)
    have ht : allWs t := fun x hx => h x (List.mem_cons_of_mem c hx)
    simp [skipWs, hc, ih ht]

theorem parseMember_chars (w1 w2 k : List Char) (v : JVal) (rest : List Char)
    (hw1 : allWs w1) (hw2 : allWs w2) (hk : '\x22' ∉ k) (hv : valOk v) :
    parseMember (w1 ++ '\x22' :: (k ++ '\x22' :: ':' :: (w2 ++ (valChars v ++ rest)))) =
      some ((String.mk k, v), rest) := by
  have h1 : skipWs (w1 ++ '\x22' :: (k ++ '\x22' :: ':' :: (w2 ++ (valChars v ++ rest)))) =
      '\x22' :: (k ++ '\x22' :: ':' :: (w2 ++ (valChars v ++ rest))) := by
    rw [skipWs_append_ws _ hw1]
    simp [skipWs, isWsChar]
  have h2 := scanStr_append k (':' :: (w2 ++ (valChars v ++ rest))) hk
  have h3 : skipWs (':' :: (w2 ++ (valChars v ++ rest))) =
      ':' :: (w2 ++ (valChars v ++ rest)) := by simp [skipWs, isWsChar]
  have h4 : skipWs (w2 ++ (valChars v ++ rest)) = valChars v ++ rest := by
    rw [skipWs_append_ws _ hw2]
    cases v with
    | jstr s => simp [valChars, skipWs, isWsChar]
    | jbool b => cases b <;> simp [valChars, skipWs, isWsChar]
  simp [parseMember, h1, h2, h3, h4, parseLit_valChars rest hv]

theorem strData_mk (l : List Char) : (String.mk l).data = l := rfl

theorem strData_append (s t : String) : (s ++ t).data = s.data ++ t.data := rfl

theorem membersChars_length (o : JObj) : o.length ≤ (membersChars o).length := by
  induction o with
  | nil => simp [membersChars]
  | cons kv rest ih =>
    obtain ⟨k, v⟩ := kv
    cases rest with
    | nil => simp [membersChars, memberChars]
    | cons kv2 rest2 =>
      simp only [membersChars, memberChars, List.isEmpty_cons, List.length_cons,
        List.length_append] at *
      simp at *
      omega

theorem parseMembers_chain (o : JObj) (rest : List Char) (fuel : Nat)
    (hne : o ≠ []) (hok : objOk o) (hfuel : o.length ≤ fuel)
    (hrest : ∀ cs2, skipWs rest ≠ ',' :: cs2) :
    parseMembers fuel (membersChars o ++ rest) = some (o, skipWs rest) := by
  induction o generalizing fuel with
  | nil => exact absurd rfl hne
  | cons kv o' ih =>
    obtain ⟨k, v⟩ := kv
    have hk : '\x22' ∉ k.data := (hok (k, v) (List.mem_cons_self _ _)).1
    have hv : valOk v := (hok (k, v) (List.mem_cons_self _ _)).2
    cases fuel with
    | zero => simp at hfuel
    | succ f =>
      cases o' with
      | nil =>
        have hshape : membersChars [(k, v)] ++ rest =
            '\x22' :: (k.data ++ '\x22' :: ':' :: (valChars v ++ rest)) := by
          simp [membersChars, memberChars]
        have hm := parseMember_chars [] [] k.data v rest
          (fun c hc => absurd hc (List.not_mem_nil c))
          (fun c hc => absurd hc (List.not_mem_nil c)) hk hv
        simp only [List.nil_append, strMk_data] at hm
        rw [hshape]
        simp only [parseMembers, hm]
      | cons kv2 o'' =>
        have hshape : membersChars ((k, v) :: kv2 :: o'') ++ rest =
            '\x22' :: (k.data ++ '\x22' :: ':' ::
              (valChars v ++ (',' :: (membersChars (kv2 :: o'') ++ rest)))) := by
          simp [membersChars, memberChars]
        have hm := parseMember_chars [] [] k.data v
          (',' :: (membersChars (kv2 :: o'') ++ rest))
          (fun c hc => absurd hc (List.not_mem_nil c))
          (fun c hc => absurd hc (List.not_mem_nil c)) hk hv
        simp only [List.nil_append, strMk_data] at hm
        rw [hshape]
        simp only [parseMembers, hm]
        have hsw : skipWs (',' :: (membersChars (kv2 :: o'') ++ rest)) =
            ',' :: (membersChars (kv2 :: o'') ++ rest) := by
          simp [skipWs, isWsChar]
        rw [hsw]
        have hok' : objOk (kv2 :: o'') := fun x hx => hok x (List.mem_cons_of_mem _ hx)
        have hfuel' : (kv2 :: o'').length ≤ f := by
          simp only [List.length_cons] at hfuel ⊢
          omega
        have hrec := ih f (by simp) hok' hfuel'
        simp [hrec]

theorem skipWs_brace (cs : List Char) : skipWs ('\x7b' :: cs) = '\x7b' :: cs := by
  simp [skipWs, isWsChar]

theorem parseJson_stringify (o : JObj) (hne : o ≠ []) (hok : objOk o) :
    parseJson (stringify o) = some o := by
  have hd : (stringify o).data = '\x7b' :: (membersChars o ++ ['\x7d']) := rfl
  have hlen : o.length ≤ (membersChars o ++ ['\x7d']).length + 1 := by
    have := membersChars_length o
    simp only [List.length_append]
    omega
  have hrest : ∀ cs2, skipWs ['\x7d'] ≠ ',' :: cs2 := by
    intro cs2
    simp [skipWs, isWsChar]
  have hchain := parseMembers_chain o ['\x7d'] ((membersChars o ++ ['\x7d']).length + 1)
    hne hok hlen hrest
  have hsw : skipWs ['\x7d'] = ['\x7d'] := by simp [skipWs, isWsChar]
  rw [hsw] at hchain
  simp only [parseJson, hd, skipWs_brace, hchain]
  simp [skipWs, isWsChar]

theorem allWs_nl : allWs ['\n'] := by
  intro c hc
  simp at hc
  simp [hc, isWsChar]

theorem allWs_space : allWs [' '] := by
  intro c hc
  simp at hc
  simp [hc, isWsChar]

theorem prettyInner1_layout (name tmpl : String) :
    (joinLines (projectConfigLines name tmpl)).data = '\x7b' :: '\n' :: prettyInner1 name tmpl := by
  have e2 : ("\x22name\x22: \x22" : String).data =
      ['\x22', 'n', 'a', 'm', 'e', '\x22', ':', ' ', '\x22'] := rfl
  have e3 : ("\x22," : String).data = ['\x22', ','] := rfl
  have e4 : ("\x22template\x22: \x22" : String).data =
      ['\x22', 't', 'e', 'm', 'p', 'l', 'a', 't', 'e', '\x22', ':', ' ', '\x22'] := rfl
  have e5 : ("\x22" : String).data = ['\x22'] := rfl
  have e1 : ("\x7b" : String).data = ['\x7b'] := rfl
  have e6 : ("\x7d" : String).data = ['\x7d'] := rfl
  simp only [joinLines, projectConfigLines, List.map, joinNl, strData_mk, strData_append,
    e1, e2, e3, e4, e5, e6, valChars, prettyInner1, prettyInner2,
    List.cons_append, List.nil_append, List.append_assoc]

theorem parseMember_prettyInner1 (name tmpl : String) (hn : '\x22' ∉ name.data) :
    parseMember ('\n' :: prettyInner1 name tmpl) =
      some (("name", JVal.jstr name), ',' :: ('\n' :: prettyInner2 tmpl)) := by
  have hm := parseMember_chars ['\n'] [' '] ['n', 'a', 'm', 'e'] (JVal.jstr name)
    (',' :: ('\n' :: prettyInner2 tmpl)) allWs_nl allWs_space (by decide) hn
  have hk : String.mk ['n', 'a', 'm', 'e'] = "name" := rfl
  rw [hk] at hm
  simpa [prettyInner1, List.singleton_append] using hm

theorem parseMember_prettyInner2 (tmpl : String) (ht : '\x22' ∉ tmpl.data) :
    parseMember ('\n' :: prettyInner2 tmpl) =
      some (("template", JVal.jstr tmpl), '\n' :: '\x7d' :: []) := by
  have hm := parseMember_chars ['\n'] [' '] ['t', 'e', 'm', 'p', 'l', 'a', 't', 'e']
    (JVal.jstr tmpl) ('\n' :: '\x7d' :: []) allWs_nl allWs_space (by decide) ht
  have hk : String.mk ['t', 'e', 'm', 'p', 'l', 'a', 't', 'e'] = "template" := rfl
  rw [hk] at hm
  simpa [prettyInner2, List.singleton_append] using hm

theorem parseMembers_pretty (name tmpl : String) (f : Nat)
    (hn : '\x22' ∉ name.data) (ht : '\x22' ∉ tmpl.data) :
    parseMembers (f + 2) ('\n' :: prettyInner1 name tmpl) =
      some ([("name", JVal.jstr name), ("template", JVal.jstr tmpl)], ['\x7d']) := by
  have hm1 := parseMember_prettyInner1 name tmpl hn
  have hm2 := parseMember_prettyInner2 tmpl ht
  have hswc : skipWs (',' :: ('\n' :: prettyInner2 tmpl)) =
      ',' :: ('\n' :: prettyInner2 tmpl) := by
    simp [skipWs, isWsChar]
  have hswnl : skipWs ('\n' :: '\x7d' :: []) = ['\x7d'] := by
    simp [skipWs, isWsChar]
  simp only [parseMembers, hm1, hswc, hm2, hswnl]
  simp [skipWs, isWsChar]

theorem parseJson_pretty (name tmpl : String)
    (hn : '\x22' ∉ name.data) (ht : '\x22' ∉ tmpl.data) :
    parseJson (joinLines (projectConfigLines name tmpl)) =
      some [("name", JVal.jstr name), ("template", JVal.jstr tmpl)] := by
  have hd := prettyInner1_layout name tmpl
  have hfuel : ('\n' :: prettyInner1 name tmpl).length + 1 =
      (prettyInner1 name tmpl).length + 2 := by
    simp
  simp only [parseJson, hd, skipWs_brace, hfuel,
    parseMembers_pretty name tmpl ((prettyInner1 name tmpl).length) hn ht]
  simp [skipWs, isWsChar]

theorem nuxtConfigPath_ne_mevnPath (p : String) : nuxtConfigPath p ≠ mevnPath p := by
  intro h
  have hlen := congrArg String.length h
  have e1 : ("./" : String).length = 2 := rfl
  have e2 : ("/mevn.json" : String).length = 10 := rfl
  have e3 : ("/nuxt.config.js" : String).length = 15 := rfl
  simp only [mevnPath, nuxtConfigPath, strLength_append, e1, e2, e3] at hlen
  omega

theorem lookup_append_single (k : String) (l : JObj) (x : String × JVal)
    (h : (k == x.1) = false) :
    List.lookup k (l ++ [x]) = List.lookup k l := by
  induction l with
  | nil => simp [List.lookup, h]
  | cons a t ih =>
    obtain ⟨a1, a2⟩ := a
    by_cases hk : (k == a1) = true
    · simp [List.lookup, hk]
    · have hk' : (k == a1) = false := by simpa using hk
      simp [List.lookup, hk', ih]

theorem objOk_name_template (appName tmpl : String) (hn : '\x22' ∉ appName.data)
    (ht : '\x22' ∉ tmpl.data) :
    objOk [(("name" : String), JVal.jstr appName), (("template" : String), JVal.jstr tmpl)] := by
  intro kv hkv
  simp at hkv
  rcases hkv with rfl | rfl
  · exact ⟨show '\x22' ∉ ("name" : String).data by decide, hn⟩
  · exact ⟨show '\x22' ∉ ("template" : String).data by decide, ht⟩

theorem objOk_name_template_isPwa (appName tmpl : String) (hn : '\x22' ∉ appName.data)
    (ht : '\x22' ∉ tmpl.data) :
    objOk [(("name" : String), JVal.jstr appName), (("template" : String), JVal.jstr tmpl),
      (("isPwa" : String), JVal.jbool true)] := by
  intro kv hkv
  simp at hkv
  rcases hkv with rfl | rfl | rfl
  · exact ⟨show '\x22' ∉ ("name" : String).data by decide, hn⟩
  · exact ⟨show '\x22' ∉ ("template" : String).data by decide, ht⟩
  · exact ⟨show '\x22' ∉ ("isPwa" : String).data by decide, trivial⟩

theorem persistedTemplate_nuxt_run (fenv : FetchEnv) (appName tmpl : String) (fs : FS)
    (hgit : fenv.gitInstalled = true)
    (hclone : fenv.cloneResult = none)
    (hn : '\x22' ∉ appName.data)
    (ht : '\x22' ∉ tmpl.data) :
    persistedTemplate (InitResult.fetched
      (fetchTemplate fenv "nuxt" appName (projectConfigLines appName tmpl) fs).2) appName =
      some (JVal.jstr tmpl) := by
  have hpp := parseJson_pretty appName tmpl hn ht
  have hok3 := objOk_name_template_isPwa appName tmpl hn ht
  have hps := parseJson_stringify _ (by simp) hok3
  by_cases hpwa : fenv.requirePwaSupport
  all_goals by_cases hmode : fenv.mode = "Universal"
  all_goals
    simp only [fetchTemplate, hgit, hclone, nuxtFollowUp, hpwa, hmode,
      pwaRewrite, universalRewrite]
  all_goals
    simp [fsRead_write_self, fsRead_write_ne, nuxtConfigPath_ne_mevnPath,
      mevnPath_ne_nuxtConfigPath, hpp, jsSet, persistedTemplate, hps, List.lookup]

/-- C1 counterexample: with the concrete inputs below (project name `app`,
template choice `Nuxt-js`, git present, clone succeeding, PWA declined,
SPA mode), the value persisted under the `template` key of `mevn.json` is
the display label `Nuxt-js`, not the canonical key `nuxt`: the config
lines are built from the prompt answer before the label is remapped. -/
theorem c1_counterexample :
    persistedTemplate ((initializeProject ⟨none, true, false, "Nuxt-js"⟩
        ⟨true, none, "x", false, "SPA", false⟩ "app" []).2) "app" =
      some (JVal.jstr "Nuxt-js") ∧
    some (JVal.jstr "Nuxt-js") ≠ some (JVal.jstr "nuxt") := by
  constructor
  · rfl
  · decide

/-- C1 amended: for every template choice among the four displayed labels,
the value written under the `template` key of `mevn.json` is the label
exactly as displayed. For `basic`, `pwa` and `graphql` this coincides with
the canonical key; for `Nuxt-js` the persisted value is `Nuxt-js`, not the
canonical key `nuxt`, because the remap to `nuxt` happens after the config
lines are built and only affects the clone URL lookup and the follow-up
logic. -/
theorem c1_amended_template_key_holds_display_label
    (ienv : InitEnv) (fenv : FetchEnv) (appName : String) (fs : FS)
    (hstray : hasMultipleProjectNameArgs ienv.argv4 = false)
    (hvalid : ienv.validForNewPackages = true)
    (hdir : ienv.dirExists = false)
    (hgit : fenv.gitInstalled = true)
    (hclone : fenv.cloneResult = none)
    (hn : '\x22' ∉ appName.data)
    (hchoice : ienv.templateChoice = "basic" ∨ ienv.templateChoice = "pwa" ∨
      ienv.templateChoice = "graphql" ∨ ienv.templateChoice = "Nuxt-js") :
    persistedTemplate (initializeProject ienv fenv appName fs).2 appName =
      some (JVal.jstr ienv.templateChoice) := by
  have hq : '\x22' ∉ (ienv.templateChoice : String).data := by
    rcases hchoice with h | h | h | h <;> rw [h] <;> decide
  rcases hchoice with h | h | h | h
  case inl | inr.inl | inr.inr.inl =>
    rw [h] at hq ⊢
    simp only [initializeProject, hstray, hvalid, hdir, h, fetchTemplate, hgit, hclone]
    simp only [persistedTemplate]
    simp [fsRead_write_self, parseJson_pretty appName _ hn hq, List.lookup]
  case inr.inr.inr =>
    rw [h] at hq ⊢
    have hrun := persistedTemplate_nuxt_run fenv appName "Nuxt-js" fs hgit hclone hn hq
    simp only [initializeProject, hstray, hvalid, hdir, h]
    simpa using hrun

/-- Witness for the C1 amended theorem at a concrete input. -/
theorem c1_amended_witness :
    persistedTemplate (initializeProject ⟨none, true, false, "Nuxt-js"⟩
        ⟨true, none, "x", true, "Universal", false⟩ "my-app" []).2 "my-app" =
      some (JVal.jstr "Nuxt-js") := by
  have h := c1_amended_template_key_holds_display_label
    ⟨none, true, false, "Nuxt-js"⟩ ⟨true, none, "x", true, "Universal", false⟩ "my-app" []
    rfl rfl rfl rfl rfl (by decide) (by simp)
  simpa using h

/-- C2: with template choice `basic` and a validated (hence quote-free)
project name, the `mevn.json` written at the project root parses to
exactly the two-entry object with the name and the template `basic`, with
no `isPwa` key. -/
theorem c2_basic_mevn_json_exact
    (ienv : InitEnv) (fenv : FetchEnv) (appName : String) (fs : FS)
    (hstray : hasMultipleProjectNameArgs ienv.argv4 = false)
    (hvalid : ienv.validForNewPackages = true)
    (hdir : ienv.dirExists = false)
    (hchoice : ienv.templateChoice = "basic")
    (hgit : fenv.gitInstalled = true)
    (hclone : fenv.cloneResult = none)
    (hn : '\x22' ∉ appName.data) :
    ∃ fs3, (initializeProject ienv fenv appName fs).2 =
        InitResult.fetched (FetchResult.success fs3) ∧
      fsRead fs3 (mevnPath appName) = some (joinLines (projectConfigLines appName "basic")) ∧
      parseJson (joinLines (projectConfigLines appName "basic")) =
        some [("name", JVal.jstr appName), ("template", JVal.jstr "basic")] ∧
      List.lookup "isPwa" [(("name" : String), JVal.jstr appName),
        (("template" : String), JVal.jstr "basic")] = none := by
  refine ⟨fsWrite (fsWrite fs (nuxtConfigPath appName) fenv.nuxtConfigContent)
    (mevnPath appName) (joinLines (projectConfigLines appName "basic")), ?_, ?_, ?_, ?_⟩
  · simp only [initializeProject, hstray, hvalid, hdir, hchoice, fetchTemplate,
      hgit, hclone, nuxtFollowUp]
    simp
  · exact fsRead_write_self _ _ _
  · exact parseJson_pretty appName "basic" hn (by decide)
  · simp [List.lookup]

/-- Witness for the C2 theorem at a concrete input. -/
theorem c2_witness :
    ∃ fs3, (initializeProject ⟨none, true, false, "basic"⟩
        ⟨true, none, "x", false, "SPA", false⟩ "my-app" []).2 =
        InitResult.fetched (FetchResult.success fs3) ∧
      fsRead fs3 (mevnPath "my-app") = some (joinLines (projectConfigLines "my-app" "basic")) ∧
      parseJson (joinLines (projectConfigLines "my-app" "basic")) =
        some [("name", JVal.jstr "my-app"), ("template", JVal.jstr "basic")] ∧
      List.lookup "isPwa" [(("name" : String), JVal.jstr "my-app"),
        (("template" : String), JVal.jstr "basic")] = none :=
  c2_basic_mevn_json_exact ⟨none, true, false, "basic"⟩
    ⟨true, none, "x", false, "SPA", false⟩ "my-app" []
    rfl rfl rfl rfl rfl rfl (by decide)

/-- C3: when the clone subprocess fails, `fetchTemplate` emits exactly the
probe, spinner-start, clone-attempt and spinner-fail events, re-throws the
original error, and writes no file at all (in particular no `mevn.json`). -/
theorem c3_clone_failure_no_write_rethrow
    (env : FetchEnv) (template projectName : String) (projectConfig : List String)
    (fs : FS) (err : String)
    (hgit : env.gitInstalled = true)
    (hclone : env.cloneResult = some err) :
    fetchTemplate env template projectName projectConfig fs =
      ([Ev.validateInstallation "git help -g",
        Ev.spinnerStart "Fetching the boilerplate template",
        Ev.gitClone (boilerplate template) projectName,
        Ev.spinnerFail "Something went wrong"], FetchResult.thrown err) ∧
    (∀ p c, Ev.writeFile p c ∉ (fetchTemplate env template projectName projectConfig fs).1) ∧
    Ev.spinnerFail "Something went wrong" ∈
      (fetchTemplate env template projectName projectConfig fs).1 := by
  have h : fetchTemplate env template projectName projectConfig fs =
      ([Ev.validateInstallation "git help -g",
        Ev.spinnerStart "Fetching the boilerplate template",
        Ev.gitClone (boilerplate template) projectName,
        Ev.spinnerFail "Something went wrong"], FetchResult.thrown err) := by
    simp [fetchTemplate, hgit, hclone]
  refine ⟨h, ?_, ?_⟩
  · rw [h]
    intro p c
    simp
  · rw [h]
    simp

/-- Witness for the C3 theorem at a concrete input. -/
theorem c3_witness :
    fetchTemplate ⟨true, some "network down", "x", false, "SPA", false⟩ "basic" "my-app"
        (projectConfigLines "my-app" "basic") [] =
      ([Ev.validateInstallation "git help -g",
        Ev.spinnerStart "Fetching the boilerplate template",
        Ev.gitClone (boilerplate "basic") "my-app",
        Ev.spinnerFail "Something went wrong"], FetchResult.thrown "network down") ∧
    (∀ p c, Ev.writeFile p c ∉ (fetchTemplate ⟨true, some "network down", "x", false, "SPA", false⟩
      "basic" "my-app" (projectConfigLines "my-app" "basic") []).1) ∧
    Ev.spinnerFail "Something went wrong" ∈
      (fetchTemplate ⟨true, some "network down", "x", false, "SPA", false⟩
        "basic" "my-app" (projectConfigLines "my-app" "basic") []).1 :=
  c3_clone_failure_no_write_rethrow ⟨true, some "network down", "x", false, "SPA", false⟩
    "basic" "my-app" (projectConfigLines "my-app" "basic") [] "network down" rfl rfl

theorem jsArraySet_natCast (l : List String) (n : Nat) (x : String) :
    jsArraySet l ((n : Nat) : Int) x = l.set n x := by
  simp [jsArraySet]

/-- C4: for the `Nuxt-js` choice with PWA accepted and `Universal` mode,
provided some line of the cloned `nuxt.config.js` contains `mode`: the run
succeeds, the final `mevn.json` parses to an object containing
`isPwa: true`, and the rewritten `nuxt.config.js` is exactly the original
line list with the first `mode`-containing line (index `i`) replaced by the
fixed universal-mode assignment: position `i` holds the fixed line, every
other position is unchanged, the length is preserved, and no earlier line
contains `mode`. -/
theorem c4_nuxt_universal_patch
    (ienv : InitEnv) (fenv : FetchEnv) (appName : String) (fs : FS)
    (hstray : hasMultipleProjectNameArgs ienv.argv4 = false)
    (hvalid : ienv.validForNewPackages = true)
    (hdir : ienv.dirExists = false)
    (hchoice : ienv.templateChoice = "Nuxt-js")
    (hgit : fenv.gitInstalled = true)
    (hclone : fenv.cloneResult = none)
    (hpwa : fenv.requirePwaSupport = true)
    (hmode : fenv.mode = "Universal")
    (hn : '\x22' ∉ appName.data)
    (hml : ∃ line ∈ splitLines fenv.nuxtConfigContent, stringIncludes line "mode" = true) :
    ∃ i fs3,
      firstIdxWith (fun l => stringIncludes l "mode") (splitLines fenv.nuxtConfigContent) =
        some i ∧
      (initializeProject ienv fenv appName fs).2 =
        InitResult.fetched (FetchResult.success fs3) ∧
      fsRead fs3 (nuxtConfigPath appName) =
        some (joinLines ((splitLines fenv.nuxtConfigContent).set i universalModeLine)) ∧
      ((splitLines fenv.nuxtConfigContent).set i universalModeLine).get? i =
        some universalModeLine ∧
      (∀ j, j ≠ i → ((splitLines fenv.nuxtConfigContent).set i universalModeLine).get? j =
        (splitLines fenv.nuxtConfigContent).get? j) ∧
      ((splitLines fenv.nuxtConfigContent).set i universalModeLine).length =
        (splitLines fenv.nuxtConfigContent).length ∧
      (∀ j, j < i → ∀ x, (splitLines fenv.nuxtConfigContent).get? j = some x →
        stringIncludes x "mode" = false) ∧
      (∃ c obj, fsRead fs3 (mevnPath appName) = some c ∧ parseJson c = some obj ∧
        (("isPwa" : String), JVal.jbool true) ∈ obj) := by
  have hfind : ∃ v, (splitLines fenv.nuxtConfigContent).find?
      (fun l => stringIncludes l "mode") = some v := by
    rw [← Option.isSome_iff_exists, List.find?_isSome]
    obtain ⟨line, hmem, hinc⟩ := hml
    exact ⟨line, hmem, hinc⟩
  obtain ⟨v, hv⟩ := hfind
  obtain ⟨i, hi⟩ := firstIdxWith_of_find?_eq_some _ _ _ hv
  obtain ⟨hlt, _, hbefore⟩ := firstIdxWith_spec _ _ _ hi
  have hidx := jsIndexOf_of_find?_eq_some _ _ _ _ hv hi
  rw [hv] at hidx
  have hpp := parseJson_pretty appName "Nuxt-js" hn (by decide)
  have hok3 := objOk_name_template_isPwa appName "Nuxt-js" hn (by decide)
  have hps := parseJson_stringify _ (by simp) hok3
  refine ⟨i,
    fsWrite
      (fsWrite
        (fsWrite (fsWrite fs (nuxtConfigPath appName) fenv.nuxtConfigContent)
          (mevnPath appName) (joinLines (projectConfigLines appName "Nuxt-js")))
        (mevnPath appName)
        (stringify [(("name" : String), JVal.jstr appName),
          (("template" : String), JVal.jstr "Nuxt-js"),
          (("isPwa" : String), JVal.jbool true)]))
      (nuxtConfigPath appName)
      (joinLines ((splitLines fenv.nuxtConfigContent).set i universalModeLine)),
    hi, ?_, ?_, ?_, ?_, ?_, hbefore, ?_⟩
  · simp only [initializeProject, hstray, hvalid, hdir, hchoice, fetchTemplate, hgit,
      hclone, nuxtFollowUp, hpwa, hmode, pwaRewrite, universalRewrite]
    simp [fsRead_write_self, fsRead_write_ne, nuxtConfigPath_ne_mevnPath,
      mevnPath_ne_nuxtConfigPath, hpp, jsSet, hv, hidx, jsArraySet_natCast]
  · exact fsRead_write_self _ _ _
  · exact List.get?_set_eq_of_lt _ hlt
  · intro j hj
    exact List.get?_set_ne _ _ (fun heq => hj heq.symm)
  · simp
  · refine ⟨stringify [(("name" : String), JVal.jstr appName),
      (("template" : String), JVal.jstr "Nuxt-js"),
      (("isPwa" : String), JVal.jbool true)],
      [(("name" : String), JVal.jstr appName),
       (("template" : String), JVal.jstr "Nuxt-js"),
       (("isPwa" : String), JVal.jbool true)], ?_, hps, by simp⟩
    rw [fsRead_write_ne _ _ _ _ (nuxtConfigPath_ne_mevnPath appName)]
    exact fsRead_write_self _ _ _

/-- Witness for the C4 theorem at a concrete input. -/
theorem c4_witness :
    ∃ i fs3,
      firstIdxWith (fun l => stringIncludes l "mode")
        (splitLines ("a\n mode: spa,\nb" : String)) = some i ∧
      (initializeProject ⟨none, true, false, "Nuxt-js"⟩
        ⟨true, none, "a\n mode: spa,\nb", true, "Universal", false⟩ "my-app" []).2 =
        InitResult.fetched (FetchResult.success fs3) ∧
      fsRead fs3 (nuxtConfigPath "my-app") =
        some (joinLines ((splitLines ("a\n mode: spa,\nb" : String)).set i universalModeLine)) ∧
      ((splitLines ("a\n mode: spa,\nb" : String)).set i universalModeLine).get? i =
        some universalModeLine ∧
      (∀ j, j ≠ i → ((splitLines ("a\n mode: spa,\nb" : String)).set i universalModeLine).get? j =
        (splitLines ("a\n mode: spa,\nb" : String)).get? j) ∧
      ((splitLines ("a\n mode: spa,\nb" : String)).set i universalModeLine).length =
        (splitLines ("a\n mode: spa,\nb" : String)).length ∧
      (∀ j, j < i → ∀ x, (splitLines ("a\n mode: spa,\nb" : String)).get? j = some x →
        stringIncludes x "mode" = false) ∧
      (∃ c obj, fsRead fs3 (mevnPath "my-app") = some c ∧ parseJson c = some obj ∧
        (("isPwa" : String), JVal.jbool true) ∈ obj) :=
  c4_nuxt_universal_patch ⟨none, true, false, "Nuxt-js"⟩
    ⟨true, none, "a\n mode: spa,\nb", true, "Universal", false⟩ "my-app" []
    rfl rfl rfl rfl rfl rfl rfl rfl (by decide) (by decide)

/-- C5: for the `Nuxt-js` choice with rendering mode `SPA`, the cloned
`nuxt.config.js` is left untouched: the final state still holds the cloned
content, and the trace contains neither a read nor a write of
`nuxt.config.js`. -/
theorem c5_spa_mode_leaves_runtime_config_untouched
    (ienv : InitEnv) (fenv : FetchEnv) (appName : String) (fs : FS)
    (hstray : hasMultipleProjectNameArgs ienv.argv4 = false)
    (hvalid : ienv.validForNewPackages = true)
    (hdir : ienv.dirExists = false)
    (hchoice : ienv.templateChoice = "Nuxt-js")
    (hgit : fenv.gitInstalled = true)
    (hclone : fenv.cloneResult = none)
    (hmode : fenv.mode = "SPA")
    (hn : '\x22' ∉ appName.data) :
    ∃ fs3, (initializeProject ienv fenv appName fs).2 =
        InitResult.fetched (FetchResult.success fs3) ∧
      fsRead fs3 (nuxtConfigPath appName) = some fenv.nuxtConfigContent ∧
      (∀ c, Ev.writeFile (nuxtConfigPath appName) c ∉
        (initializeProject ienv fenv appName fs).1) ∧
      Ev.readFile (nuxtConfigPath appName) ∉ (initializeProject ienv fenv appName fs).1 := by
  have hpp := parseJson_pretty appName "Nuxt-js" hn (by decide)
  by_cases hpwa : fenv.requirePwaSupport
  · refine ⟨fsWrite
      (fsWrite (fsWrite fs (nuxtConfigPath appName) fenv.nuxtConfigContent)
        (mevnPath appName) (joinLines (projectConfigLines appName "Nuxt-js")))
      (mevnPath appName)
      (stringify [(("name" : String), JVal.jstr appName),
        (("template" : String), JVal.jstr "Nuxt-js"),
        (("isPwa" : String), JVal.jbool true)]), ?_, ?_, ?_, ?_⟩
    · simp only [initializeProject, hstray, hvalid, hdir, hchoice, fetchTemplate, hgit,
        hclone, nuxtFollowUp, hpwa, pwaRewrite]
      simp [hmode, fsRead_write_self, hpp, jsSet]
    · rw [fsRead_write_ne _ _ _ _ (mevnPath_ne_nuxtConfigPath appName),
        fsRead_write_ne _ _ _ _ (mevnPath_ne_nuxtConfigPath appName)]
      exact fsRead_write_self _ _ _
    · intro c
      simp only [initializeProject, hstray, hvalid, hdir, hchoice, fetchTemplate, hgit,
        hclone, nuxtFollowUp, hpwa, pwaRewrite, showCommandsList]
      simp [hmode, fsRead_write_self, hpp, jsSet, nuxtConfigPath_ne_mevnPath,
        mevnPath_ne_nuxtConfigPath]
    · simp only [initializeProject, hstray, hvalid, hdir, hchoice, fetchTemplate, hgit,
        hclone, nuxtFollowUp, hpwa, pwaRewrite, showCommandsList]
      simp [hmode, fsRead_write_self, hpp, jsSet, nuxtConfigPath_ne_mevnPath,
        mevnPath_ne_nuxtConfigPath]
  · refine ⟨fsWrite (fsWrite fs (nuxtConfigPath appName) fenv.nuxtConfigContent)
        (mevnPath appName) (joinLines (projectConfigLines appName "Nuxt-js")), ?_, ?_, ?_, ?_⟩
    · simp only [initializeProject, hstray, hvalid, hdir, hchoice, fetchTemplate, hgit,
        hclone, nuxtFollowUp, hpwa, pwaRewrite]
      simp [hmode]
    · rw [fsRead_write_ne _ _ _ _ (mevnPath_ne_nuxtConfigPath appName)]
      exact fsRead_write_self _ _ _
    · intro c
      simp only [initializeProject, hstray, hvalid, hdir, hchoice, fetchTemplate, hgit,
        hclone, nuxtFollowUp, hpwa, pwaRewrite, showCommandsList]
      simp [hmode, nuxtConfigPath_ne_mevnPath, mevnPath_ne_nuxtConfigPath]
    · simp only [initializeProject, hstray, hvalid, hdir, hchoice, fetchTemplate, hgit,
        hclone, nuxtFollowUp, hpwa, pwaRewrite, showCommandsList]
      simp [hmode, nuxtConfigPath_ne_mevnPath, mevnPath_ne_nuxtConfigPath]

/-- Witness for the C5 theorem at a concrete input. -/
theorem c5_witness :
    ∃ fs3, (initializeProject ⟨none, true, false, "Nuxt-js"⟩
        ⟨true, none, "a\n mode: spa,\nb", false, "SPA", false⟩ "my-app" []).2 =
        InitResult.fetched (FetchResult.success fs3) ∧
      fsRead fs3 (nuxtConfigPath "my-app") = some ("a\n mode: spa,\nb" : String) ∧
      (∀ c, Ev.writeFile (nuxtConfigPath "my-app") c ∉
        (initializeProject ⟨none, true, false, "Nuxt-js"⟩
          ⟨true, none, "a\n mode: spa,\nb", false, "SPA", false⟩ "my-app" []).1) ∧
      Ev.readFile (nuxtConfigPath "my-app") ∉
        (initializeProject ⟨none, true, false, "Nuxt-js"⟩
          ⟨true, none, "a\n mode: spa,\nb", false, "SPA", false⟩ "my-app" []).1 :=
  c5_spa_mode_leaves_runtime_config_untouched ⟨none, true, false, "Nuxt-js"⟩
    ⟨true, none, "a\n mode: spa,\nb", false, "SPA", false⟩ "my-app" []
    rfl rfl rfl rfl rfl rfl rfl (by decide)

/-- C6 counterexample: with an existing directory at the candidate path
(project name `app`, no stray argument, valid name), the aborted run's
trace already contains the `existsCheck` filesystem query — the directory
check itself is a filesystem operation, so the abort does not happen
before every filesystem operation as the claim states for this case. -/
theorem c6_counterexample :
    initializeProject ⟨none, true, true, "basic"⟩ ⟨true, none, "x", false, "SPA", false⟩
        "app" [] = ([Ev.showBanner, Ev.existsCheck "app"], InitResult.dirExistsAbort) ∧
    Ev.existsCheck "app" ∈
      (initializeProject ⟨none, true, true, "basic"⟩ ⟨true, none, "x", false, "SPA", false⟩
        "app" []).1 := by
  constructor
  · rfl
  · decide

/-- C6 amended: the three validations run in the order stray-arguments,
package-name, existing-directory, and each failure aborts before any
filesystem mutation or network operation: a stray argument or an invalid
name aborts with no filesystem access at all, and an existing directory
aborts right after the read-only existence query that detects it, with no
clone and no write. -/
theorem c6_amended_validation_order
    (ienv : InitEnv) (fenv : FetchEnv) (appName : String) (fs : FS) :
    (hasMultipleProjectNameArgs ienv.argv4 = true →
      initializeProject ienv fenv appName fs = ([Ev.showBanner], InitResult.strayArgsAbort)) ∧
    (hasMultipleProjectNameArgs ienv.argv4 = false → ienv.validForNewPackages = false →
      initializeProject ienv fenv appName fs = ([Ev.showBanner], InitResult.invalidNameAbort)) ∧
    (hasMultipleProjectNameArgs ienv.argv4 = false → ienv.validForNewPackages = true →
      ienv.dirExists = true →
      initializeProject ienv fenv appName fs =
        ([Ev.showBanner, Ev.existsCheck appName], InitResult.dirExistsAbort)) := by
  refine ⟨?_, ?_, ?_⟩ <;> intros <;> simp [initializeProject, *]

/-- Witness for the C6 amended theorem: three concrete runs, one per
validation failure; the first also demonstrates the precedence of the
stray-arguments check over the other two. -/
theorem c6_witness :
    initializeProject ⟨some "extra", false, true, "x"⟩ ⟨true, none, "x", false, "SPA", false⟩
        "app" [] = ([Ev.showBanner], InitResult.strayArgsAbort) ∧
    initializeProject ⟨none, false, true, "x"⟩ ⟨true, none, "x", false, "SPA", false⟩
        "app" [] = ([Ev.showBanner], InitResult.invalidNameAbort) ∧
    initializeProject ⟨none, true, true, "x"⟩ ⟨true, none, "x", false, "SPA", false⟩
        "app" [] = ([Ev.showBanner, Ev.existsCheck "app"], InitResult.dirExistsAbort) :=
  ⟨(c6_amended_validation_order ⟨some "extra", false, true, "x"⟩
      ⟨true, none, "x", false, "SPA", false⟩ "app" []).1 (by decide),
   (c6_amended_validation_order ⟨none, false, true, "x"⟩
      ⟨true, none, "x", false, "SPA", false⟩ "app" []).2.1 rfl rfl,
   (c6_amended_validation_order ⟨none, true, true, "x"⟩
      ⟨true, none, "x", false, "SPA", false⟩ "app" []).2.2 rfl rfl rfl⟩

/-- C7: on every execution path of the workflow, no clone event occurs
before the first probe of the version-control client (`git help -g`), and
when the client is missing no clone event occurs at all; conversely a
clone event in the trace implies the probe succeeded. -/
theorem c7_probe_before_clone
    (ienv : InitEnv) (fenv : FetchEnv) (appName : String) (fs : FS)
    (evs : List Ev) (h : evs = (initializeProject ienv fenv appName fs).1) :
    cloneBeforeProbe evs = false ∧
    (fenv.gitInstalled = false → ∀ u d, Ev.gitClone u d ∉ evs) ∧
    (∀ u d, Ev.gitClone u d ∈ evs → fenv.gitInstalled = true) := by
  subst h
  refine ⟨?_, ?_, ?_⟩
  · simp only [initializeProject, fetchTemplate]
    repeat' split
    all_goals simp [cloneBeforeProbe]
  · intro hg u d
    simp only [initializeProject, fetchTemplate, hg]
    repeat' split
    all_goals simp_all
  · intro u d hmem
    cases hg : fenv.gitInstalled with
    | true => rfl
    | false =>
      exfalso
      simp only [initializeProject, fetchTemplate, hg] at hmem
      revert hmem
      repeat' split
      all_goals simp_all

/-- Witness for the C7 theorem at a concrete input with the client
missing: the trace holds no clone event. -/
theorem c7_witness :
    cloneBeforeProbe ((initializeProject ⟨none, true, false, "basic"⟩
      ⟨false, none, "x", false, "SPA", false⟩ "app" []).1) = false ∧
    (∀ u d, Ev.gitClone u d ∉ (initializeProject ⟨none, true, false, "basic"⟩
      ⟨false, none, "x", false, "SPA", false⟩ "app" []).1) := by
  have h := c7_probe_before_clone ⟨none, true, false, "basic"⟩
    ⟨false, none, "x", false, "SPA", false⟩ "app" []
    ((initializeProject ⟨none, true, false, "basic"⟩
      ⟨false, none, "x", false, "SPA", false⟩ "app" []).1) rfl
  exact ⟨h.1, h.2.1 rfl⟩

theorem nuxtFollowUp_no_finalizer_events (env : FetchEnv) (pn : String) (fs : FS) :
    Ev.printCommandsTable ∉ (nuxtFollowUp env pn fs).1 ∧
    ∀ m1 m2, Ev.gitCommit m1 m2 ∉ (nuxtFollowUp env pn fs).1 := by
  simp only [nuxtFollowUp, pwaRewrite, universalRewrite]
  repeat' split
  all_goals simp_all

theorem nuxtFollowUp_ok (fenv : FetchEnv) (appName tmpl : String) (fs : FS)
    (hn : '\x22' ∉ appName.data) (ht : '\x22' ∉ tmpl.data) :
    ∃ fs3, (nuxtFollowUp fenv appName
      (fsWrite (fsWrite fs (nuxtConfigPath appName) fenv.nuxtConfigContent)
        (mevnPath appName) (joinLines (projectConfigLines appName tmpl)))).2 =
      Except.ok fs3 := by
  have hpp := parseJson_pretty appName tmpl hn ht
  by_cases hpwa : fenv.requirePwaSupport
  all_goals by_cases hmode : fenv.mode = "Universal"
  all_goals
    simp only [nuxtFollowUp, hpwa, hmode, pwaRewrite, universalRewrite]
  all_goals
    simp [fsRead_write_self, fsRead_write_ne, nuxtConfigPath_ne_mevnPath,
      mevnPath_ne_nuxtConfigPath, hpp]

/-- C8: for every template choice, once the clone and the config write
succeed, the trace ends with exactly one invocation of the Post-Fetch
Finalizer block (`showCommandsList`: command table, `.git` removal,
re-init, stage, single fixed-message commit): the finalizer block is
appended at the end of the trace, its events occur nowhere earlier, and
the fixed-message commit event is present. -/
theorem c8_finalizer_exactly_once
    (ienv : InitEnv) (fenv : FetchEnv) (appName : String) (fs : FS)
    (hstray : hasMultipleProjectNameArgs ienv.argv4 = false)
    (hvalid : ienv.validForNewPackages = true)
    (hdir : ienv.dirExists = false)
    (hgit : fenv.gitInstalled = true)
    (hclone : fenv.cloneResult = none)
    (hn : '\x22' ∉ appName.data)
    (hchoice : ienv.templateChoice = "basic" ∨ ienv.templateChoice = "pwa" ∨
      ienv.templateChoice = "graphql" ∨ ienv.templateChoice = "Nuxt-js") :
    ∃ pre fs3,
      (initializeProject ienv fenv appName fs).2 =
        InitResult.fetched (FetchResult.success fs3) ∧
      (initializeProject ienv fenv appName fs).1 = pre ++ showCommandsList fenv.isWin appName ∧
      Ev.printCommandsTable ∉ pre ∧
      (∀ m1 m2, Ev.gitCommit m1 m2 ∉ pre) ∧
      Ev.gitCommit "Initial commit" "From Mevn-CLI" ∈
        (initializeProject ienv fenv appName fs).1 := by
  rcases hchoice with h | h | h | h
  case inl | inr.inl | inr.inr.inl =>
    refine ⟨[Ev.showBanner, Ev.existsCheck appName,
      Ev.promptList "template" "Please select your template of choice"
        ["basic", "pwa", "graphql", "Nuxt-js"],
      Ev.validateInstallation "git help -g",
      Ev.spinnerStart "Fetching the boilerplate template",
      Ev.gitClone (boilerplate ienv.templateChoice) appName,
      Ev.spinnerStop,
      Ev.writeFile (mevnPath appName) (joinLines (projectConfigLines appName ienv.templateChoice))],
      fsWrite (fsWrite fs (nuxtConfigPath appName) fenv.nuxtConfigContent)
        (mevnPath appName) (joinLines (projectConfigLines appName ienv.templateChoice)),
      ?_, ?_, ?_, ?_, ?_⟩
    · simp only [initializeProject, hstray, hvalid, hdir, h, fetchTemplate, hgit, hclone]
      simp
    · simp only [initializeProject, hstray, hvalid, hdir, h, fetchTemplate, hgit, hclone,
        showCommandsList]
      simp
    · simp
    · intro m1 m2
      simp
    · simp only [initializeProject, hstray, hvalid, hdir, h, fetchTemplate, hgit, hclone,
        showCommandsList]
      simp
  case inr.inr.inr =>
    have hq : '\x22' ∉ ("Nuxt-js" : String).data := by decide
    obtain ⟨fs3, hfok⟩ := nuxtFollowUp_ok fenv appName "Nuxt-js" fs hn hq
    have hnofin := nuxtFollowUp_no_finalizer_events fenv appName
      (fsWrite (fsWrite fs (nuxtConfigPath appName) fenv.nuxtConfigContent)
        (mevnPath appName) (joinLines (projectConfigLines appName "Nuxt-js")))
    refine ⟨[Ev.showBanner, Ev.existsCheck appName,
      Ev.promptList "template" "Please select your template of choice"
        ["basic", "pwa", "graphql", "Nuxt-js"],
      Ev.validateInstallation "git help -g",
      Ev.spinnerStart "Fetching the boilerplate template",
      Ev.gitClone (boilerplate "nuxt") appName,
      Ev.spinnerStop,
      Ev.writeFile (mevnPath appName) (joinLines (projectConfigLines appName "Nuxt-js"))] ++
        (nuxtFollowUp fenv appName
          (fsWrite (fsWrite fs (nuxtConfigPath appName) fenv.nuxtConfigContent)
            (mevnPath appName) (joinLines (projectConfigLines appName "Nuxt-js")))).1,
      fs3, ?_, ?_, ?_, ?_, ?_⟩
    · simp only [initializeProject, hstray, hvalid, hdir, h, fetchTemplate, hgit, hclone]
      simp [hfok]
    · simp only [initializeProject, hstray, hvalid, hdir, h, fetchTemplate, hgit, hclone,
        showCommandsList]
      simp [hfok]
    · simp [hnofin.1]
    · intro m1 m2
      simp [hnofin.2 m1 m2]
    · simp only [initializeProject, hstray, hvalid, hdir, h, fetchTemplate, hgit, hclone,
        showCommandsList]
      simp [hfok]

/-- Witness for the C8 theorem at a concrete input. -/
theorem c8_witness :
    ∃ pre fs3,
      (initializeProject ⟨none, true, false, "Nuxt-js"⟩
        ⟨true, none, "x", true, "Universal", false⟩ "my-app" []).2 =
        InitResult.fetched (FetchResult.success fs3) ∧
      (initializeProject ⟨none, true, false, "Nuxt-js"⟩
        ⟨true, none, "x", true, "Universal", false⟩ "my-app" []).1 =
        pre ++ showCommandsList false "my-app" ∧
      Ev.printCommandsTable ∉ pre ∧
      (∀ m1 m2, Ev.gitCommit m1 m2 ∉ pre) ∧
      Ev.gitCommit "Initial commit" "From Mevn-CLI" ∈
        (initializeProject ⟨none, true, false, "Nuxt-js"⟩
          ⟨true, none, "x", true, "Universal", false⟩ "my-app" []).1 :=
  c8_finalizer_exactly_once ⟨none, true, false, "Nuxt-js"⟩
    ⟨true, none, "x", true, "Universal", false⟩ "my-app" []
    rfl rfl rfl rfl rfl (by decide) (by simp)

/-- C9: when no line of the cloned `nuxt.config.js` contains `mode`, the
searched index resolves to `-1`, the array write at `-1` changes no line,
and the file rewritten by the Universal patch holds exactly the original
content (the original lines in their original order). -/
theorem c9_no_mode_line_file_unchanged
    (env : FetchEnv) (projectName : String) (projectConfig : List String) (fs : FS)
    (hgit : env.gitInstalled = true)
    (hclone : env.cloneResult = none)
    (hpwa : env.requirePwaSupport = false)
    (hmode : env.mode = "Universal")
    (hnone : ∀ line ∈ splitLines env.nuxtConfigContent, stringIncludes line "mode" = false) :
    jsIndexOf (splitLines env.nuxtConfigContent)
      ((splitLines env.nuxtConfigContent).find? (fun l => stringIncludes l "mode")) = -1 ∧
    ∃ fs3, (fetchTemplate env "nuxt" projectName projectConfig fs).2 =
        FetchResult.success fs3 ∧
      fsRead fs3 (nuxtConfigPath projectName) = some env.nuxtConfigContent := by
  have hfind : (splitLines env.nuxtConfigContent).find?
      (fun l => stringIncludes l "mode") = none := by
    rw [List.find?_eq_none]
    intro x hx
    simp [hnone x hx]
  constructor
  · rw [hfind]
    rfl
  · refine ⟨fsWrite
      (fsWrite (fsWrite fs (nuxtConfigPath projectName) env.nuxtConfigContent)
        (mevnPath projectName) (joinLines projectConfig))
      (nuxtConfigPath projectName) env.nuxtConfigContent, ?_, ?_⟩
    · simp only [fetchTemplate, hgit, hclone, nuxtFollowUp, hpwa, hmode, universalRewrite]
      simp [fsRead_write_self, fsRead_write_ne, nuxtConfigPath_ne_mevnPath,
        mevnPath_ne_nuxtConfigPath, hfind, jsIndexOf, jsArraySet, joinLines_splitLines]
    · exact fsRead_write_self _ _ _

/-- Witness for the C9 theorem at a concrete input. -/
theorem c9_witness :
    jsIndexOf (splitLines ("a\nb" : String))
      ((splitLines ("a\nb" : String)).find? (fun l => stringIncludes l "mode")) = -1 ∧
    ∃ fs3, (fetchTemplate ⟨true, none, "a\nb", false, "Universal", false⟩ "nuxt" "my-app"
        (projectConfigLines "my-app" "Nuxt-js") []).2 = FetchResult.success fs3 ∧
      fsRead fs3 (nuxtConfigPath "my-app") = some ("a\nb" : String) :=
  c9_no_mode_line_file_unchanged ⟨true, none, "a\nb", false, "Universal", false⟩
    "my-app" (projectConfigLines "my-app" "Nuxt-js") [] rfl rfl rfl rfl (by decide)

/-- C10: the PWA opt-in rewrite of `mevn.json` is a read-modify-write that
preserves every existing entry: parsing the rewritten file yields the old
object extended by `isPwa: true` at the end, so every old entry is still
present and the lookups of `name` and `template` are unchanged. -/
theorem c10_pwa_rewrite_preserves_entries
    (projectName : String) (fs : FS) (content : String) (obj : JObj)
    (hread : fsRead fs (mevnPath projectName) = some content)
    (hparse : parseJson content = some obj)
    (hne : obj ≠ [])
    (hok : objOk obj)
    (hnokey : obj.any (fun p => p.1 == "isPwa") = false) :
    ∃ c2,
      pwaRewrite projectName fs =
        ([Ev.readFile (mevnPath projectName), Ev.writeFile (mevnPath projectName) c2],
         Except.ok (fsWrite fs (mevnPath projectName) c2)) ∧
      parseJson c2 = some (obj ++ [(("isPwa" : String), JVal.jbool true)]) ∧
      (∀ kv ∈ obj, kv ∈ obj ++ [(("isPwa" : String), JVal.jbool true)]) ∧
      List.lookup "name" (obj ++ [(("isPwa" : String), JVal.jbool true)]) =
        List.lookup "name" obj ∧
      List.lookup "template" (obj ++ [(("isPwa" : String), JVal.jbool true)]) =
        List.lookup "template" obj := by
  have hset : jsSet obj "isPwa" (JVal.jbool true) =
      obj ++ [(("isPwa" : String), JVal.jbool true)] := by
    simp [jsSet, hnokey]
  have hok' : objOk (obj ++ [(("isPwa" : String), JVal.jbool true)]) := by
    intro kv hkv
    rcases List.mem_append.mp hkv with hkv | hkv
    · exact hok kv hkv
    · simp at hkv
      subst hkv
      exact ⟨show '\x22' ∉ ("isPwa" : String).data by decide, trivial⟩
  have hps := parseJson_stringify _ (by simp [hne]) hok'
  refine ⟨stringify (obj ++ [(("isPwa" : String), JVal.jbool true)]), ?_, hps, ?_, ?_, ?_⟩
  · simp [pwaRewrite, hread, hparse, hset]
  · intro kv hkv
    exact List.mem_append_left _ hkv
  · exact lookup_append_single _ _ _ (by decide)
  · exact lookup_append_single _ _ _ (by decide)

/-- Witness for the C10 theorem at a concrete input: the config file as
initially written for project `app` with the `Nuxt-js` label. -/
theorem c10_witness :
    ∃ c2,
      pwaRewrite "app" [(mevnPath "app", joinLines (projectConfigLines "app" "Nuxt-js"))] =
        ([Ev.readFile (mevnPath "app"), Ev.writeFile (mevnPath "app") c2],
         Except.ok (fsWrite [(mevnPath "app", joinLines (projectConfigLines "app" "Nuxt-js"))]
           (mevnPath "app") c2)) ∧
      parseJson c2 = some ([(("name" : String), JVal.jstr "app"),
        (("template" : String), JVal.jstr "Nuxt-js")] ++
        [(("isPwa" : String), JVal.jbool true)]) ∧
      (∀ kv ∈ [(("name" : String), JVal.jstr "app"),
        (("template" : String), JVal.jstr "Nuxt-js")],
        kv ∈ [(("name" : String), JVal.jstr "app"),
          (("template" : String), JVal.jstr "Nuxt-js")] ++
          [(("isPwa" : String), JVal.jbool true)]) ∧
      List.lookup "name" ([(("name" : String), JVal.jstr "app"),
        (("template" : String), JVal.jstr "Nuxt-js")] ++
        [(("isPwa" : String), JVal.jbool true)]) =
        List.lookup "name" [(("name" : String), JVal.jstr "app"),
          (("template" : String), JVal.jstr "Nuxt-js")] ∧
      List.lookup "template" ([(("name" : String), JVal.jstr "app"),
        (("template" : String), JVal.jstr "Nuxt-js")] ++
        [(("isPwa" : String), JVal.jbool true)]) =
        List.lookup "template" [(("name" : String), JVal.jstr "app"),
          (("template" : String), JVal.jstr "Nuxt-js")] :=
  c10_pwa_rewrite_preserves_entries "app"
    [(mevnPath "app", joinLines (projectConfigLines "app" "Nuxt-js"))]
    (joinLines (projectConfigLines "app" "Nuxt-js"))
    [(("name" : String), JVal.jstr "app"), (("template" : String), JVal.jstr "Nuxt-js")]
    (fsRead_write_self [] _ _)
    (parseJson_pretty "app" "Nuxt-js" (by decide) (by decide))
    (by simp)
    (objOk_name_template "app" "Nuxt-js" (by decide) (by decide))
    (by decide)

end MevnCli
